import Mathlib

/-!
Verification development for the BVBTCampflow repository.

The development shallowly embeds the core of the program:

* `campflow_api.py` — `make_rows` (with its inner `to_dt` timestamp
  normalisation) and `fingerprint`;
* `sheets_handler.py` — `row_for_position` and the paid-suffix parser
  `is_paid` used by `_read_sheet`;
* `main.py` — the reconciliation pass of `main` (upsert loop and
  clearing loop) and the polling loop's state handling.

Python strings are modelled char-by-char (`String` / `List Char`);
Python's timezone-aware datetimes are modelled as microseconds since
the Unix epoch (UTC), with the system local timezone an explicit
offset parameter `loc` (in seconds), since `datetime.astimezone`
interprets offset-naive values in the system local timezone.
-/

namespace Campflow

/-! ### Calendar arithmetic (model of `datetime`)

Days-from-civil uses the standard Gregorian algorithm; `datetime`
years are restricted to 1..9999 so all intermediate values stay
non-negative.  -/

def isLeap (y : Nat) : Bool :=
  y % 4 == 0 && (y % 100 != 0 || y % 400 == 0)

def daysInMonth (y m : Nat) : Nat :=
  if m = 2 then (if isLeap y then 29 else 28)
  else if m = 4 ∨ m = 6 ∨ m = 9 ∨ m = 11 then 30
  else 31

def daysFromCivil (y m d : Nat) : Int :=
  let y' := if m ≤ 2 then y - 1 else y
  let era := y' / 400
  let yoe := y' % 400
  let mp := (m + 9) % 12
  let doy := (153 * mp + 2) / 5 + d - 1
  let doe := yoe * 365 + yoe / 4 - yoe / 100 + doy
  (((era * 146097 + doe : Nat)) : Int) - 719468

def epochMicros (y m d h mi s us : Nat) : Int :=
  daysFromCivil y m d * 86400000000 +
    (((h * 3600 + mi * 60 + s) * 1000000 + us : Nat) : Int)

/-! ### ISO-8601 parsing (model of `datetime.fromisoformat`)

The grammar covered is `YYYY-MM-DD[(T| )HH[:MM[:SS[.fff…]]]][±HH:MM]`,
the shapes `fromisoformat` accepts that the program can meet.  The
result is `(instant-as-if-UTC, explicit-offset?)`, both in
microseconds.  -/

def digVal (c : Char) : Nat := c.toNat - 48

def readDigits : Nat → Nat → List Char → Option (Nat × List Char)
  | 0, acc, cs => some (acc, cs)
  | _ + 1, _, [] => none
  | n + 1, acc, c :: cs =>
    if c.isDigit then readDigits n (acc * 10 + digVal c) cs else none

def readN (n : Nat) (cs : List Char) : Option (Nat × List Char) :=
  readDigits n 0 cs

def expect (c : Char) : List Char → Option (List Char)
  | [] => none
  | d :: cs => if d = c then some cs else none

def fracMicros (ds : List Char) : Nat :=
  let six := ds.take 6
  (six.foldl (fun a c => a * 10 + digVal c) 0) * 10 ^ (6 - six.length)

def parseFrac (cs : List Char) : Option (Nat × List Char) :=
  if cs.head? = some '.' then
    let ds := cs.tail.takeWhile (fun c => c.isDigit)
    let rest := cs.tail.dropWhile (fun c => c.isDigit)
    if ds.isEmpty then none else some (fracMicros ds, rest)
  else some (0, cs)

def parseTime (cs : List Char) : Option (Nat × Nat × Nat × Nat × List Char) :=
  match readN 2 cs with
  | none => none
  | some (h, cs) =>
    if h > 23 then none
    else if cs.head? = some ':' then
      match readN 2 cs.tail with
      | none => none
      | some (mi, cs) =>
        if mi > 59 then none
        else if cs.head? = some ':' then
          match readN 2 cs.tail with
          | none => none
          | some (s, cs) =>
            if s > 59 then none
            else
              match parseFrac cs with
              | none => none
              | some (us, rest) => some (h, mi, s, us, rest)
        else some (h, mi, 0, 0, cs)
    else some (h, 0, 0, 0, cs)

def parseOffTail (sgn : Char) (cs : List Char) : Option Int :=
  match readN 2 cs with
  | none => none
  | some (oh, cs) =>
    match expect ':' cs with
    | none => none
    | some cs =>
      match readN 2 cs with
      | none => none
      | some (om, cs) =>
        if oh > 23 ∨ om > 59 then none
        else if ¬ cs.isEmpty then none
        else
          let off : Int := (((oh * 3600 + om * 60) * 1000000 : Nat) : Int)
          some (if sgn = '+' then off else -off)

def parseIso (cs : List Char) : Option (Int × Option Int) :=
  match readN 4 cs with
  | none => none
  | some (y, cs) =>
    match expect '-' cs with
    | none => none
    | some cs =>
      match readN 2 cs with
      | none => none
      | some (m, cs) =>
        match expect '-' cs with
        | none => none
        | some cs =>
          match readN 2 cs with
          | none => none
          | some (d, cs) =>
            if y < 1 ∨ m < 1 ∨ m > 12 ∨ d < 1 ∨ d > daysInMonth y m then none
            else if cs.isEmpty then some (epochMicros y m d 0 0 0 0, none)
            else if cs.head? = some 'T' ∨ cs.head? = some ' ' then
              match parseTime cs.tail with
              | none => none
              | some (h, mi, s, us, cs) =>
                if cs.isEmpty then some (epochMicros y m d h mi s us, none)
                else if cs.head? = some '+' ∨ cs.head? = some '-' then
                  match parseOffTail (cs.headD ' ') cs.tail with
                  | none => none
                  | some off => some (epochMicros y m d h mi s us, some off)
                else none
            else none

/-! ### `make_rows.to_dt` (campflow_api.py lines 58-63)

```python
def to_dt(s: str):
    if s.endswith("Z"):
        s = s[:-1] + "+00:00"
    elif "+" not in s[-6:] and "-" not in s[-6:]:
        s += "+00:00"
    return datetime.fromisoformat(s).astimezone(timezone.utc)
```

`astimezone(timezone.utc)` keeps the instant of an aware datetime and
interprets a naive datetime in the system local timezone (`loc`
seconds east of UTC).  -/

def lastN (n : Nat) (cs : List Char) : List Char :=
  cs.drop (cs.length - n)

def to_dtL (loc : Int) (cs : List Char) : Option Int :=
  let cs' :=
    if ['Z'].isSuffixOf cs then cs.dropLast ++ "+00:00".data
    else if ¬ ((lastN 6 cs).contains '+' ∨ (lastN 6 cs).contains '-') then
      cs ++ "+00:00".data
    else cs
  (parseIso cs').map fun p => p.1 - p.2.getD (loc * 1000000)

def to_dt (loc : Int) (s : String) : Option Int := to_dtL loc s.data

/-! ### Row building (campflow_api.py `make_rows`, lines 55-73) -/

structure Record where
  team : String
  village : String
  creation_date : String
  label_names : List String
deriving DecidableEq

/-- Python `str.strip()`: whitespace removed from both ends. -/
def pyStrip (s : String) : String :=
  ⟨((s.data.dropWhile Char.isWhitespace).reverse.dropWhile
      Char.isWhitespace).reverse⟩

def LABEL_PAID : String := "Bezahlt"

/-- One iteration of the `for pos, it in enumerate(ordered, 1)` body:
the rendered cell text and the paid flag. -/
def renderRow (it : Record) : String × Bool :=
  let team := pyStrip it.team
  let village := pyStrip it.village
  let paid := it.label_names.contains LABEL_PAID
  (team ++ " aus " ++ village ++ " – " ++
    (if paid then "bestätigt" else "unbestätigt"), paid)

/-- Sort key order used by `sorted(items, key=...)`. -/
def keyLe : Int × Record → Int × Record → Prop := fun a b => a.1 ≤ b.1

instance : DecidableRel keyLe := fun a b => Int.decLe a.1 b.1

instance : IsTotal (Int × Record) keyLe := ⟨fun a b => Int.le_total a.1 b.1⟩

instance : IsTrans (Int × Record) keyLe := ⟨fun _ _ _ => Int.le_trans⟩

/-- The key extraction `sorted` performs up front: every record paired
with its normalised creation timestamp, in input order; `none` when
any timestamp fails to parse (Python raises out of `make_rows`). -/
def keyRecords (loc : Int) : List Record → Option (List (Int × Record))
  | [] => some []
  | it :: rest =>
    match to_dt loc it.creation_date, keyRecords loc rest with
    | some t, some ks => some ((t, it) :: ks)
    | _, _ => none

/-- `make_rows`: pair each record with its normalised creation
timestamp, sort ascending and stably by that key (Python's `sorted`
is a stable sort, modelled by `insertionSort`), then number from 1
and render. -/
def make_rows (loc : Int) (items : List Record) :
    Option (List (Nat × String × Bool)) :=
  match keyRecords loc items with
  | none => none
  | some keyed =>
    let ordered := List.insertionSort keyLe keyed
    some ((ordered.enumFrom 1).map
      (fun p => (p.1, (renderRow p.2.2).1, (renderRow p.2.2).2)))

/-! ### Position mapping (sheets_handler.py lines 32-33) -/

def row_for_position (reserved pos : Nat) : Nat :=
  if pos ≤ reserved then pos + 1 else pos + 4

/-! ### Fingerprint (campflow_api.py lines 75-79)

```python
return hashlib.sha256(
    json.dumps(rows, separators=(",", ":"), sort_keys=True).encode()
).hexdigest()
```

`json.dumps` with `ensure_ascii` (the default) emits pure ASCII, so
`.encode()` is the identity on char codes.  SHA-256 is implemented
from FIPS 180-4; its round constants are derived, as in the standard,
from the fractional parts of the cube/square roots of the first
primes.  -/

def hexDigit (n : Nat) : Char :=
  if n < 10 then Char.ofNat (48 + n) else Char.ofNat (87 + n)

def uEscape4 (n : Nat) : List Char :=
  ['\\', 'u', hexDigit (n / 4096 % 16), hexDigit (n / 256 % 16),
   hexDigit (n / 16 % 16), hexDigit (n % 16)]

/-- `json.dumps` escaping with `ensure_ascii=True`: `"` and `\` get a
backslash, the five short control escapes are used, every other char
outside `0x20..0x7e` becomes `\uXXXX` (surrogate pairs above
`0xFFFF`). -/
def jsonEscapeChar (c : Char) : List Char :=
  if c = '"' then ['\\', '"']
  else if c = '\\' then ['\\', '\\']
  else if c.toNat = 8 then ['\\', 'b']
  else if c.toNat = 9 then ['\\', 't']
  else if c.toNat = 10 then ['\\', 'n']
  else if c.toNat = 12 then ['\\', 'f']
  else if c.toNat = 13 then ['\\', 'r']
  else if c.toNat < 32 then uEscape4 c.toNat
  else if c.toNat ≤ 126 then [c]
  else if c.toNat ≤ 65535 then uEscape4 c.toNat
  else
    let v := c.toNat - 65536
    uEscape4 (55296 + v / 1024) ++ uEscape4 (56320 + v % 1024)

def jsonStr (s : String) : List Char :=
  '"' :: (s.data.flatMap jsonEscapeChar) ++ ['"']

def jsonBool (b : Bool) : List Char :=
  if b then "true".data else "false".data

def jsonRow (r : Nat × String × Bool) : List Char :=
  '[' :: (Nat.repr r.1).data ++ ',' :: jsonStr r.2.1 ++ ',' :: jsonBool r.2.2 ++ [']']

def jsonRows (rows : List (Nat × String × Bool)) : List Char :=
  match rows with
  | [] => "[]".data
  | r :: rs => '[' :: jsonRow r ++
      (rs.flatMap (fun r' => ',' :: jsonRow r')) ++ [']']

def pow32 : Nat := 4294967296

/-- Integer cube root by bisection (fuelled; 200 halvings suffice for
every value used). -/
def ncbrtAux (n : Nat) : Nat → Nat → Nat → Nat
  | lo, _, 0 => lo
  | lo, hi, fuel + 1 =>
    let mid := (lo + hi) / 2
    if mid = lo then lo
    else if mid ^ 3 ≤ n then ncbrtAux n mid hi fuel
    else ncbrtAux n lo mid fuel

def ncbrt (n : Nat) : Nat := ncbrtAux n 0 (n + 1) 200

/-- Integer square root by bisection (fuelled likewise). -/
def nsqrtAux (n : Nat) : Nat → Nat → Nat → Nat
  | lo, _, 0 => lo
  | lo, hi, fuel + 1 =>
    let mid := (lo + hi) / 2
    if mid = lo then lo
    else if mid ^ 2 ≤ n then nsqrtAux n mid hi fuel
    else nsqrtAux n lo mid fuel

def nsqrt (n : Nat) : Nat := nsqrtAux n 0 (n + 1) 200

def primes64 : List Nat :=
  [2, 3, 5, 7, 11, 13, 17, 19, 23, 29, 31, 37, 41, 43, 47, 53,
   59, 61, 67, 71, 73, 79, 83, 89, 97, 101, 103, 107, 109, 113, 127, 131,
   137, 139, 149, 151, 157, 163, 167, 173, 179, 181, 191, 193, 197, 199, 211, 223,
   227, 229, 233, 239, 241, 251, 257, 263, 269, 271, 277, 281, 283, 293, 307, 311]

def shaK : List Nat := primes64.map (fun p => ncbrt (p * 2 ^ 96) % pow32)

def shaH0 : List Nat :=
  (primes64.take 8).map (fun p => nsqrt (p * 2 ^ 64) % pow32)

def rotr32 (n x : Nat) : Nat := ((x >>> n) ||| (x <<< (32 - n))) % pow32

def bigSigma0 (x : Nat) : Nat := rotr32 2 x ^^^ rotr32 13 x ^^^ rotr32 22 x

def bigSigma1 (x : Nat) : Nat := rotr32 6 x ^^^ rotr32 11 x ^^^ rotr32 25 x

def smallSigma0 (x : Nat) : Nat := rotr32 7 x ^^^ rotr32 18 x ^^^ (x >>> 3)

def smallSigma1 (x : Nat) : Nat := rotr32 17 x ^^^ rotr32 19 x ^^^ (x >>> 10)

def shaCh (x y z : Nat) : Nat := (x &&& y) ^^^ ((x ^^^ 4294967295) &&& z)

def shaMaj (x y z : Nat) : Nat := (x &&& y) ^^^ (x &&& z) ^^^ (y &&& z)

def bytesToWords : List Nat → List Nat
  | a :: b :: c :: d :: rest => (((a * 256 + b) * 256 + c) * 256 + d) :: bytesToWords rest
  | _ => []

def schedule : List Nat → Nat → List Nat
  | ws, 0 => ws
  | ws, k + 1 =>
    let n := ws.length
    let w := (ws.getD (n - 16) 0 + smallSigma0 (ws.getD (n - 15) 0) +
              ws.getD (n - 7) 0 + smallSigma1 (ws.getD (n - 2) 0)) % pow32
    schedule (ws ++ [w]) k

def compressStep (st : List Nat) (kw : Nat × Nat) : List Nat :=
  let a := st.getD 0 0
  let b := st.getD 1 0
  let c := st.getD 2 0
  let d := st.getD 3 0
  let e := st.getD 4 0
  let f := st.getD 5 0
  let g := st.getD 6 0
  let h := st.getD 7 0
  let t1 := (h + bigSigma1 e + shaCh e f g + kw.1 + kw.2) % pow32
  let t2 := (bigSigma0 a + shaMaj a b c) % pow32
  [(t1 + t2) % pow32, a, b, c, (d + t1) % pow32, e, f, g]

def processBlock (hs : List Nat) (block : List Nat) : List Nat :=
  let ws := schedule (bytesToWords block) 48
  let st := (shaK.zip ws).foldl compressStep hs
  (hs.zip st).map (fun p => (p.1 + p.2) % pow32)

def processChunks : List Nat → List Nat → Nat → List Nat
  | hs, _, 0 => hs
  | hs, msg, k + 1 => processChunks (processBlock hs (msg.take 64)) (msg.drop 64) k

def beBytes (k n : Nat) : List Nat :=
  (List.range k).map (fun i => n / 256 ^ (k - 1 - i) % 256)

def padMsg (msg : List Nat) : List Nat :=
  let L := msg.length
  msg ++ 128 :: List.replicate ((119 - L % 64) % 64) 0 ++ beBytes 8 (L * 8)

def sha256bytes (msg : List Nat) : List Nat :=
  let p := padMsg msg
  let hs := processChunks shaH0 p (p.length / 64)
  (hs.map (beBytes 4)).flatten

def sha256hex (msg : List Nat) : String :=
  ⟨(sha256bytes msg).flatMap (fun b => [hexDigit (b / 16), hexDigit (b % 16)])⟩

def fingerprint (rows : List (Nat × String × Bool)) : String :=
  sha256hex ((jsonRows rows).map Char.toNat)

/-! ### Store-side model (sheets_handler.py) -/

/-- One value of the `get_current()` dict: physical row, parsed
position, paid flag and raw cell text. -/
structure Entry where
  row : Nat
  pos : Nat
  paid : Bool
  text : String
deriving DecidableEq

/-- The `get_current()` mapping, keyed by team name; Python dicts keep
insertion order, modelled by an association list with distinct keys. -/
abbrev Store := List (String × Entry)

def lookupTeam (cur : Store) (team : String) : Option Entry :=
  (cur.find? (fun p => p.1 == team)).map (fun p => p.2)

/-- `_read_sheet.is_paid` (sheets_handler.py lines 81-82): the cell is
paid when it ends in the en-dash or hyphen paid suffix. -/
def is_paid (c : String) : Bool :=
  "– bestätigt".data.isSuffixOf c.data || "- bestätigt".data.isSuffixOf c.data

/-! ### Reconciliation (main.py lines 42-64) -/

/-- `text.split(" aus ")[0]`: the characters before the first
occurrence of the separator, or the whole text if it is absent. -/
def takeBeforeSep (sep : List Char) : List Char → List Char
  | [] => []
  | c :: rest =>
    if sep.isPrefixOf (c :: rest) then [] else c :: takeBeforeSep sep rest

def teamOf (text : String) : String := ⟨takeBeforeSep " aus ".data text.data⟩

/-- A pending write `(row_idx, [pos, text])`; `none` is the blanking
payload `["", ""]`. -/
abbrev Update := Nat × Option (Nat × String)

/-- A pending colour `(row_idx, paid)`; `none` resets to neutral. -/
abbrev ColorInstr := Nat × Option Bool

/-- The upsert loop's appends to `updates` (main.py lines 47-56). -/
def upsertUpdates (reserved : Nat) (cur : Store)
    (rows : List (Nat × String × Bool)) : List Update :=
  rows.filterMap fun r =>
    let rowIdx := row_for_position reserved r.1
    match lookupTeam cur (teamOf r.2.1) with
    | some e => if e.text ≠ r.2.1 then some (rowIdx, some (r.1, r.2.1)) else none
    | none => some (rowIdx, some (r.1, r.2.1))

/-- The upsert loop's appends to `formats` (main.py line 58). -/
def upsertFormats (reserved : Nat)
    (rows : List (Nat × String × Bool)) : List ColorInstr :=
  rows.map fun r => (row_for_position reserved r.1, some r.2.2)

/-- The `seen` set after the upsert loop. -/
def seenTeams (rows : List (Nat × String × Bool)) : List String :=
  rows.map fun r => teamOf r.2.1

/-- The clearing loop's appends to `updates` (main.py lines 61-63). -/
def clearUpdates (cur : Store) (rows : List (Nat × String × Bool)) : List Update :=
  (cur.filter fun p => !(seenTeams rows).contains p.1).map
    (fun p => (p.2.row, none))

/-- The clearing loop's appends to `formats` (main.py line 64). -/
def clearFormats (cur : Store) (rows : List (Nat × String × Bool)) : List ColorInstr :=
  (cur.filter fun p => !(seenTeams rows).contains p.1).map
    (fun p => (p.2.row, none))

/-- The complete instruction lists produced by one sync pass. -/
def reconcile (reserved : Nat) (rows : List (Nat × String × Bool))
    (cur : Store) : List Update × List ColorInstr :=
  (upsertUpdates reserved cur rows ++ clearUpdates cur rows,
   upsertFormats reserved rows ++ clearFormats cur rows)

/-! ### The polling loop (main.py lines 30-79)

One `while True` iteration, with the fallible external calls as an
explicit environment: `fetchRes = none` models an exception from
`fetch_persons` (the build step's own failure is `make_rows = none`),
`readRes = none` an exception from `get_current`, `applyOk = false`
an exception inside `apply_changes`.  The trace records which store
operations the tick performed.  -/

structure TickEnv where
  fetchRes : Option (List Record)
  readRes : Option Store
  applyOk : Bool
  loc : Int

inductive Ev where
  | readStore
  | writeStore
deriving DecidableEq

def tick (env : TickEnv) (last_fp : Option String) : Option String × List Ev :=
  match env.fetchRes with
  | none => (last_fp, [])
  | some items =>
    match make_rows env.loc items with
    | none => (last_fp, [])
    | some rows =>
      let fp := fingerprint rows
      if some fp = last_fp then (last_fp, [])
      else
        match env.readRes with
        | none => (last_fp, [Ev.readStore])
        | some cur =>
          let _instr := reconcile 72 rows cur
          if env.applyOk then (some fp, [Ev.readStore, Ev.writeStore])
          else (last_fp, [Ev.readStore, Ev.writeStore])

def runLoop : List TickEnv → Option String → Option String × List (List Ev)
  | [], last_fp => (last_fp, [])
  | e :: rest, last_fp =>
    let r := tick e last_fp
    let r' := runLoop rest r.1
    (r'.1, r.2 :: r'.2)

/-! ## Claim theorems -/

/-- Claim C4: with reserved capacity 72 and one header row,
`row_for_position` maps `pos ≤ 72` to `pos + 1` and `pos > 72` to
`pos + 4`; it is injective on positive positions, its image avoids the
separator block `[74, 76]`, and `row_for_position 72 = 73`,
`row_for_position 73 = 77`. -/
theorem claim4_row_for_position :
    (∀ pos, 1 ≤ pos → pos ≤ 72 → row_for_position 72 pos = pos + 1) ∧
    (∀ pos, 72 < pos → row_for_position 72 pos = pos + 4) ∧
    (∀ p₁ p₂, 1 ≤ p₁ → 1 ≤ p₂ →
      row_for_position 72 p₁ = row_for_position 72 p₂ → p₁ = p₂) ∧
    (∀ pos, 1 ≤ pos →
      ¬ (74 ≤ row_for_position 72 pos ∧ row_for_position 72 pos ≤ 76)) ∧
    row_for_position 72 72 = 73 ∧ row_for_position 72 73 = 77 := by
  refine ⟨?_, ?_, ?_, ?_, by decide, by decide⟩
  · intro pos h1 h2
    simp only [row_for_position]
    split <;> omega
  · intro pos h
    simp only [row_for_position]
    split <;> omega
  · intro p₁ p₂ h1 h2 h
    simp only [row_for_position] at h
    split at h <;> split at h <;> omega
  · intro pos h
    simp only [row_for_position]
    split <;> omega

/-- Witness for C4 at positions 50 and 73. -/
theorem claim4_row_for_position_witness :
    row_for_position 72 50 = 51 ∧ row_for_position 72 73 = 77 :=
  ⟨claim4_row_for_position.1 50 (by decide) (by decide),
   claim4_row_for_position.2.2.2.2.2⟩

/-- Claim C8: the fingerprint is a pure function of the row contents —
two RowSets with identical `(position, text, paid)` sequences in
identical order (i.e. equal as lists) have equal fingerprints. -/
theorem claim8_fingerprint_deterministic
    (R₁ R₂ : List (Nat × String × Bool)) (h : R₁ = R₂) :
    fingerprint R₁ = fingerprint R₂ :=
  congrArg fingerprint h

/-- Witness for C8 at a concrete one-row RowSet. -/
theorem claim8_fingerprint_deterministic_witness :
    fingerprint [(1, "Adler aus Beesten – bestätigt", true)] =
      fingerprint [(1, "Adler aus Beesten – bestätigt", true)] :=
  claim8_fingerprint_deterministic _ _ rfl

/-- Claim C1: for a row `(pos, text, paid)` of the fresh RowSet, the
reconciler enqueues the Update `(row_for_position pos, [pos, text])`
iff the team (prefix of `text` before `" aus "`) is absent from the
store or its stored text differs from `text`; with identical stored
text that Update is absent. -/
theorem claim1_update_gate (reserved : Nat) (cur : Store)
    (rows : List (Nat × String × Bool)) (pos : Nat) (text : String) (paid : Bool)
    (hmem : (pos, text, paid) ∈ rows) :
    ((row_for_position reserved pos, some (pos, text)) ∈
        (reconcile reserved rows cur).1) ↔
      (∀ e, lookupTeam cur (teamOf text) = some e → e.text ≠ text) := by
  have hclear : ((row_for_position reserved pos, some (pos, text)) ∈
      clearUpdates cur rows) ↔ False := by
    simp only [clearUpdates, List.mem_map, iff_false]
    rintro ⟨p, -, hp⟩
    simp at hp
  simp only [reconcile, List.mem_append, hclear, or_false]
  constructor
  · rintro hup
    simp only [upsertUpdates, List.mem_filterMap] at hup
    obtain ⟨⟨p₁, t₁, b₁⟩, -, hf⟩ := hup
    dsimp only at hf
    intro e he
    cases hl : lookupTeam cur (teamOf t₁) with
    | none =>
      rw [hl] at hf
      have hf' : some (row_for_position reserved p₁, some (p₁, t₁)) =
          some (row_for_position reserved pos, some (pos, text)) := hf
      simp only [Option.some.injEq, Prod.mk.injEq] at hf'
      obtain ⟨-, hp, ht⟩ := hf'
      subst hp; subst ht
      rw [hl] at he
      cases he
    | some e₁ =>
      rw [hl] at hf
      by_cases hne : e₁.text ≠ t₁
      · have hf' : (if e₁.text ≠ t₁ then
            some (row_for_position reserved p₁, some (p₁, t₁)) else none) =
            some (row_for_position reserved pos, some (pos, text)) := hf
        rw [if_pos hne] at hf'
        simp only [Option.some.injEq, Prod.mk.injEq] at hf'
        obtain ⟨-, hp, ht⟩ := hf'
        subst hp; subst ht
        rw [hl] at he
        injection he with h
        subst h
        exact hne
      · have hf' : (if e₁.text ≠ t₁ then
            some (row_for_position reserved p₁, some (p₁, t₁)) else none) =
            some (row_for_position reserved pos, some (pos, text)) := hf
        rw [if_neg hne] at hf'
        cases hf'
  · intro hcond
    simp only [upsertUpdates, List.mem_filterMap]
    refine ⟨(pos, text, paid), hmem, ?_⟩
    dsimp only
    cases hl : lookupTeam cur (teamOf text) with
    | none => rfl
    | some e =>
      show (if e.text ≠ text then
          some (row_for_position reserved pos, some (pos, text)) else none) =
        some (row_for_position reserved pos, some (pos, text))
      rw [if_pos (hcond e hl)]

/-- Witness for C1: a new team (empty store) gets its Update. -/
theorem claim1_update_gate_witness :
    ((row_for_position 72 1, some (1, "Adler aus Beesten – bestätigt")) ∈
        (reconcile 72 [(1, "Adler aus Beesten – bestätigt", true)] []).1) ↔
      (∀ e, lookupTeam [] (teamOf "Adler aus Beesten – bestätigt") = some e →
        e.text ≠ "Adler aus Beesten – bestätigt") :=
  claim1_update_gate 72 [] [(1, "Adler aus Beesten – bestätigt", true)]
    1 "Adler aus Beesten – bestätigt" true (by decide)

/-- Every update the upsert loop enqueues carries a `(pos, text)`
payload, never the blanking payload. -/
theorem mem_upsertUpdates_snd {reserved : Nat} {cur : Store}
    {rows : List (Nat × String × Bool)} {u : Update}
    (h : u ∈ upsertUpdates reserved cur rows) : u.2 ≠ none := by
  simp only [upsertUpdates, List.mem_filterMap] at h
  obtain ⟨x, -, hf⟩ := h
  cases hl : lookupTeam cur (teamOf x.2.1) with
  | none =>
    rw [hl] at hf
    have hf' : some (row_for_position reserved x.1, some (x.1, x.2.1)) = some u := hf
    injection hf' with h'
    rw [← h']
    simp
  | some e =>
    rw [hl] at hf
    have hf' : (if e.text ≠ x.2.1 then
        some (row_for_position reserved x.1, some (x.1, x.2.1)) else none) =
        some u := hf
    by_cases hne : e.text ≠ x.2.1
    · rw [if_pos hne] at hf'
      injection hf' with h'
      rw [← h']
      simp
    · rw [if_neg hne] at hf'
      cases hf'

/-- `count` of a member of a duplicate-free list is 1 (stated for an
arbitrary lawful `BEq`). -/
theorem count_nodup_mem_eq_one {α : Type} [BEq α] [LawfulBEq α] {l : List α}
    {a : α} (hnd : l.Nodup) (h : a ∈ l) : l.count a = 1 := by
  induction l with
  | nil => cases h
  | cons b l ih =>
    rw [List.count_cons]
    rcases List.mem_cons.mp h with rfl | h'
    · rw [List.count_eq_zero.mpr (List.nodup_cons.mp hnd).1]
      simp
    · have hne : a ≠ b := fun e => (List.nodup_cons.mp hnd).1 (e ▸ h')
      rw [ih (List.nodup_cons.mp hnd).2 h']
      simp [hne, Ne.symm hne]

/-- The clearing loop emits pairwise distinct instructions when the
stored physical rows are distinct. -/
theorem count_clear_eq_one {γ : Type} [BEq (Nat × γ)] [LawfulBEq (Nat × γ)]
    (c : γ) (cur : Store)
    (rows : List (Nat × String × Bool)) (team : String) (e : Entry)
    (hrow : (cur.map fun p => p.2.row).Nodup)
    (hmem : (team, e) ∈ cur) (hunseen : team ∉ seenTeams rows) :
    ((cur.filter fun p => !(seenTeams rows).contains p.1).map
        (fun p => (p.2.row, c))).count (e.row, c) = 1 := by
  have hnd1 : ((cur.filter fun p => !(seenTeams rows).contains p.1).map
      fun p => p.2.row).Nodup :=
    List.Nodup.sublist (List.Sublist.map _ (List.filter_sublist _)) hrow
  have hmm : ((cur.filter fun p => !(seenTeams rows).contains p.1).map
      (fun p => (p.2.row, c))) =
      (((cur.filter fun p => !(seenTeams rows).contains p.1).map
        fun p => p.2.row).map fun r => (r, c)) := by
    rw [List.map_map]
    rfl
  have hnd : ((cur.filter fun p => !(seenTeams rows).contains p.1).map
      (fun p => (p.2.row, c))).Nodup := by
    rw [hmm]
    exact hnd1.map (fun a b h => by simpa using congrArg Prod.fst h)
  refine count_nodup_mem_eq_one hnd (List.mem_map.mpr ⟨(team, e), ?_, rfl⟩)
  exact List.mem_filter.mpr ⟨hmem, by simp [List.contains, List.elem_eq_mem, hunseen]⟩

/-- Claim C2: every stored team missing from the fresh RowSet gets
exactly one blanking Update and exactly one neutral ColorInstruction
at its stored physical row; with an empty RowSet that holds for every
stored team; a team present in the RowSet never gets a blanking
Update at its row. -/
theorem claim2_removal_blanking (reserved : Nat)
    (rows : List (Nat × String × Bool)) (cur : Store)
    (hrow : (cur.map fun p => p.2.row).Nodup) :
    (∀ team e, (team, e) ∈ cur → team ∉ seenTeams rows →
      ((reconcile reserved rows cur).1.count (e.row, none) = 1 ∧
       (reconcile reserved rows cur).2.count (e.row, none) = 1)) ∧
    (rows = [] → ∀ team e, (team, e) ∈ cur →
      ((reconcile reserved rows cur).1.count (e.row, none) = 1 ∧
       (reconcile reserved rows cur).2.count (e.row, none) = 1)) ∧
    (∀ team e, (team, e) ∈ cur → team ∈ seenTeams rows →
      (e.row, (none : Option (Nat × String))) ∉ (reconcile reserved rows cur).1) := by
  have hmain : ∀ team e, (team, e) ∈ cur → team ∉ seenTeams rows →
      ((reconcile reserved rows cur).1.count (e.row, none) = 1 ∧
       (reconcile reserved rows cur).2.count (e.row, none) = 1) := by
    intro team e hmem hunseen
    constructor
    · show (upsertUpdates reserved cur rows ++ clearUpdates cur rows).count _ = 1
      rw [List.count_append,
        List.count_eq_zero.mpr (fun h => mem_upsertUpdates_snd h rfl),
        clearUpdates,
        count_clear_eq_one (Option.none) cur rows team e hrow hmem hunseen]
    · show (upsertFormats reserved rows ++ clearFormats cur rows).count _ = 1
      have hce : (e.row, (none : Option Bool)) ∉ upsertFormats reserved rows := by
        intro h
        simp only [upsertFormats, List.mem_map] at h
        obtain ⟨r, -, hr⟩ := h
        simp at hr
      rw [List.count_append, List.count_eq_zero.mpr hce,
        clearFormats,
        count_clear_eq_one (Option.none) cur rows team e hrow hmem hunseen]
  refine ⟨hmain, ?_, ?_⟩
  · rintro rfl team e hmem
    exact hmain team e hmem (by simp [seenTeams])
  · intro team e hmem hseen h
    rcases List.mem_append.mp h with h | h
    · exact mem_upsertUpdates_snd h rfl
    · simp only [clearUpdates, List.mem_map] at h
      obtain ⟨p, hpf, heq⟩ := h
      have hp : p ∈ cur := List.mem_of_mem_filter hpf
      have hq := (List.mem_filter.mp hpf).2
      have hrr : p.2.row = e.row := by
        injection heq with h1 h2
      have : p = (team, e) :=
        List.inj_on_of_nodup_map hrow hp hmem (by simpa using hrr)
      rw [this] at hq
      simp [List.contains, List.elem_eq_mem, hseen] at hq

/-- Witness for C2: a single stored team and an empty RowSet. -/
theorem claim2_removal_blanking_witness :
    (reconcile 72 ([] : List (Nat × String × Bool))
        [("Geier", ⟨6, 2, false, "Geier aus Emsbüren – unbestätigt"⟩)]).1.count
      (6, none) = 1 ∧
    (reconcile 72 ([] : List (Nat × String × Bool))
        [("Geier", ⟨6, 2, false, "Geier aus Emsbüren – unbestätigt"⟩)]).2.count
      (6, none) = 1 :=
  (claim2_removal_blanking 72 []
      [("Geier", ⟨6, 2, false, "Geier aus Emsbüren – unbestätigt"⟩)]
      (by decide)).1 "Geier" ⟨6, 2, false, "Geier aus Emsbüren – unbestätigt"⟩
    (by decide) (by decide)

/-- Claim C3: a second run over a store that already reflects the
RowSet (every row's team found with identical stored text, every
stored team present in the RowSet) produces no Updates but still one
ColorInstruction per row carrying that row's paid flag. -/
theorem claim3_idempotent_second_run (reserved : Nat)
    (rows : List (Nat × String × Bool)) (cur : Store)
    (hmatch : ∀ r ∈ rows, ∃ e, lookupTeam cur (teamOf r.2.1) = some e ∧
      e.text = r.2.1)
    (hcover : ∀ p ∈ cur, p.1 ∈ seenTeams rows) :
    (reconcile reserved rows cur).1 = [] ∧
    (reconcile reserved rows cur).2 =
      rows.map (fun r => (row_for_position reserved r.1, some r.2.2)) ∧
    (reconcile reserved rows cur).2.length = rows.length := by
  have hfilter : (cur.filter fun p => !(seenTeams rows).contains p.1) = [] := by
    rw [List.filter_eq_nil_iff]
    intro p hp
    simp [List.contains, List.elem_eq_mem, hcover p hp]
  have hup : upsertUpdates reserved cur rows = [] := by
    rw [upsertUpdates, List.filterMap_eq_nil_iff]
    rintro ⟨p₁, t₁, b₁⟩ hr
    obtain ⟨e, hl, ht⟩ := hmatch _ hr
    dsimp only
    rw [hl]
    show (if e.text ≠ t₁ then
        some (row_for_position reserved p₁, some (p₁, t₁)) else none) = none
    rw [if_neg (by simp [ht])]
  refine ⟨?_, ?_, ?_⟩
  · show upsertUpdates reserved cur rows ++ clearUpdates cur rows = []
    rw [hup, clearUpdates, hfilter, List.map_nil, List.append_nil]
  · show upsertFormats reserved rows ++ clearFormats cur rows = _
    rw [clearFormats, hfilter, List.map_nil, List.append_nil]
    rfl
  · show (upsertFormats reserved rows ++ clearFormats cur rows).length = _
    rw [clearFormats, hfilter, List.map_nil, List.append_nil, upsertFormats,
      List.length_map]

/-- Witness for C3: one-row RowSet against its own reflection. -/
theorem claim3_idempotent_second_run_witness :
    (reconcile 72 [(1, "Adler aus Beesten – bestätigt", true)]
        [("Adler", ⟨2, 1, true, "Adler aus Beesten – bestätigt"⟩)]).1 = [] ∧
    (reconcile 72 [(1, "Adler aus Beesten – bestätigt", true)]
        [("Adler", ⟨2, 1, true, "Adler aus Beesten – bestätigt"⟩)]).2 =
      [(1, "Adler aus Beesten – bestätigt", true)].map
        (fun r => (row_for_position 72 r.1, some r.2.2)) ∧
    (reconcile 72 [(1, "Adler aus Beesten – bestätigt", true)]
        [("Adler", ⟨2, 1, true, "Adler aus Beesten – bestätigt"⟩)]).2.length =
      [(1, "Adler aus Beesten – bestätigt", true)].length :=
  claim3_idempotent_second_run 72 _ _ (by decide) (by decide)

/-- Two suffixes of one list with equal lengths coincide. -/
theorem suffix_eq_of_len {α : Type} {l₁ l₂ l₃ : List α} (h1 : l₁ <:+ l₃)
    (h2 : l₂ <:+ l₃) (h : l₁.length = l₂.length) : l₁ = l₂ := by
  rcases List.suffix_or_suffix_of_suffix h1 h2 with hs | hs
  · exact hs.eq_of_length h
  · exact (hs.eq_of_length h.symm).symm

/-- The paid-suffix parser inverts the renderer on any rendered row
text: paid texts end in `– bestätigt`, unpaid texts end in
`unbestätigt`, which matches neither paid suffix. -/
theorem is_paid_render (it : Record) :
    is_paid (renderRow it).1 = (renderRow it).2 := by
  cases hp : it.label_names.contains LABEL_PAID with
  | true =>
    have hpm : LABEL_PAID ∈ it.label_names := by
      simpa [List.contains, List.elem_eq_mem] using hp
    have hr1 : (renderRow it).1 =
        pyStrip it.team ++ " aus " ++ pyStrip it.village ++ " – " ++ "bestätigt" := by
      simp [renderRow, hpm]
    have hr2 : (renderRow it).2 = true := by
      simp [renderRow, hpm]
    rw [hr1, hr2]
    have key : "– bestätigt".data <:+
        (pyStrip it.team ++ " aus " ++ pyStrip it.village ++ " – " ++
          "bestätigt").data := by
      simp only [String.data_append, List.append_assoc]
      refine List.IsSuffix.trans ?_ ((List.suffix_append _ _).trans
        ((List.suffix_append _ _).trans (List.suffix_append _ _)))
      decide
    simp only [is_paid, Bool.or_eq_true]
    exact Or.inl (List.isSuffixOf_iff_suffix.mpr key)
  | false =>
    have hpm : LABEL_PAID ∉ it.label_names := by
      simpa [List.contains, List.elem_eq_mem] using hp
    have hr1 : (renderRow it).1 =
        pyStrip it.team ++ " aus " ++ pyStrip it.village ++ " – " ++ "unbestätigt" := by
      simp [renderRow, hpm]
    have hr2 : (renderRow it).2 = false := by
      simp [renderRow, hpm]
    rw [hr1, hr2]
    have hu : "unbestätigt".data <:+
        (pyStrip it.team ++ " aus " ++ pyStrip it.village ++ " – " ++
          "unbestätigt").data := by
      simp only [String.data_append, List.append_assoc]
      refine List.IsSuffix.trans ?_ ((List.suffix_append _ _).trans
        ((List.suffix_append _ _).trans (List.suffix_append _ _)))
      decide
    simp only [is_paid, Bool.or_eq_false_iff]
    constructor
    · rw [Bool.eq_false_iff]
      simp only [ne_eq, List.isSuffixOf_iff_suffix]
      intro hs
      exact absurd (suffix_eq_of_len hs hu (by decide)) (by decide)
    · rw [Bool.eq_false_iff]
      simp only [ne_eq, List.isSuffixOf_iff_suffix]
      intro hs
      exact absurd (suffix_eq_of_len hs hu (by decide)) (by decide)

/-- Claim C10: for every row produced by `make_rows`, the store-side
paid parser applied to the row's text returns exactly the row's paid
flag, whatever the team and village strings are. -/
theorem claim10_paid_roundtrip (loc : Int) (items : List Record)
    (rows : List (Nat × String × Bool)) (h : make_rows loc items = some rows) :
    ∀ r ∈ rows, is_paid r.2.1 = r.2.2 := by
  rw [make_rows] at h
  cases hk : keyRecords loc items with
  | none => rw [hk] at h; cases h
  | some keyed =>
    rw [hk] at h
    have h' : some (((List.insertionSort keyLe keyed).enumFrom 1).map
        (fun p => (p.1, (renderRow p.2.2).1, (renderRow p.2.2).2))) = some rows := h
    injection h' with h'
    subst h'
    intro r hr
    simp only [List.mem_map] at hr
    obtain ⟨p, -, rfl⟩ := hr
    exact is_paid_render p.2.2

/-- Witness for C10 at a concrete one-record payload. -/
theorem claim10_paid_roundtrip_witness :
    is_paid "Adler aus Beesten – bestätigt" = true :=
  claim10_paid_roundtrip 0 [⟨"Adler", "Beesten", "2024-01-01T09:00:00Z", ["Bezahlt"]⟩]
    [(1, "Adler aus Beesten – bestätigt", true)] (by decide)
    (1, "Adler aus Beesten – bestätigt", true) (by decide)

/-! Records used in concrete scenarios. -/

def falkenRec : Record := ⟨"Falken", "Spelle", "2024-01-02T10:00:00Z", []⟩

def adlerRec : Record := ⟨"Adler", "Beesten", "2024-01-01T09:00:00Z", ["Bezahlt"]⟩

def malformedRec : Record := ⟨"Geier", "Emsbüren", "not-a-date", []⟩

/-- If any record's timestamp fails to parse, key extraction fails as
a whole. -/
theorem keyRecords_none (loc : Int) :
    ∀ items : List Record, (∃ it ∈ items, to_dt loc it.creation_date = none) →
      keyRecords loc items = none := by
  intro items
  induction items with
  | nil => rintro ⟨it, hmem, -⟩; cases hmem
  | cons x rest ih =>
    rintro ⟨it, hmem, hbad⟩
    rcases List.mem_cons.mp hmem with rfl | hmem'
    · show (match to_dt loc it.creation_date, keyRecords loc rest with
        | some t, some ks => some ((t, it) :: ks)
        | _, _ => none) = none
      rw [hbad]
    · show (match to_dt loc x.creation_date, keyRecords loc rest with
        | some t, some ks => some ((t, x) :: ks)
        | _, _ => none) = none
      cases hx : to_dt loc x.creation_date with
      | none => rfl
      | some t => rw [ih ⟨it, hmem', hbad⟩]

/-- Claim C9 counterexample: with a record whose timestamp cannot be
parsed in the payload, the whole build fails — the well-formed record
`adlerRec`, processable on its own, yields no row at all in that
cycle. -/
theorem claim9_malformed_counterexample :
    to_dt 0 malformedRec.creation_date = none ∧
    make_rows 0 [adlerRec] = some [(1, "Adler aus Beesten – bestätigt", true)] ∧
    make_rows 0 [adlerRec, malformedRec] = none :=
  ⟨by decide, by decide, by decide⟩

/-- Claim C9 (amended): a record with an unparseable creation
timestamp aborts the whole row build — `make_rows` fails for the
entire payload and no record is processed that tick (the sync loop
catches the error and retries next tick, cf. C7). -/
theorem claim9_malformed_aborts (loc : Int) (items : List Record)
    (h : ∃ it ∈ items, to_dt loc it.creation_date = none) :
    make_rows loc items = none := by
  rw [make_rows, keyRecords_none loc items h]

/-- Witness for the amended C9. -/
theorem claim9_malformed_aborts_witness : make_rows 0 [malformedRec] = none :=
  claim9_malformed_aborts 0 [malformedRec] ⟨malformedRec, by decide, by decide⟩

/-- Claim C7: per-tick state atomicity of the polling loop — the
last-accepted fingerprint changes only when fetch, build, read and
apply all succeed (and then to the new fingerprint); every failure
leaves it unchanged; a tick whose fingerprint equals the last
accepted one performs no store read or write; and the loop processes
every subsequent tick regardless of failures. -/
theorem claim7_tick_atomicity :
    (∀ env last_fp, env.fetchRes = none → tick env last_fp = (last_fp, [])) ∧
    (∀ env last_fp items, env.fetchRes = some items →
      make_rows env.loc items = none → tick env last_fp = (last_fp, [])) ∧
    (∀ env last_fp items rows, env.fetchRes = some items →
      make_rows env.loc items = some rows →
      some (fingerprint rows) = last_fp → tick env last_fp = (last_fp, [])) ∧
    (∀ env last_fp items rows, env.fetchRes = some items →
      make_rows env.loc items = some rows →
      some (fingerprint rows) ≠ last_fp → env.readRes = none →
      tick env last_fp = (last_fp, [Ev.readStore])) ∧
    (∀ env last_fp items rows cur, env.fetchRes = some items →
      make_rows env.loc items = some rows →
      some (fingerprint rows) ≠ last_fp → env.readRes = some cur →
      env.applyOk = false →
      tick env last_fp = (last_fp, [Ev.readStore, Ev.writeStore])) ∧
    (∀ env last_fp items rows cur, env.fetchRes = some items →
      make_rows env.loc items = some rows →
      some (fingerprint rows) ≠ last_fp → env.readRes = some cur →
      env.applyOk = true →
      tick env last_fp = (some (fingerprint rows), [Ev.readStore, Ev.writeStore])) ∧
    (∀ env last_fp, (tick env last_fp).1 ≠ last_fp → env.applyOk = true) ∧
    (∀ envs last_fp, (runLoop envs last_fp).2.length = envs.length) := by
  refine ⟨?_, ?_, ?_, ?_, ?_, ?_, ?_, ?_⟩
  · intro env l h1
    simp [tick, h1]
  · intro env l items h1 h2
    simp [tick, h1, h2]
  · intro env l items rows h1 h2 h3
    simp [tick, h1, h2, h3]
  · intro env l items rows h1 h2 h3 h4
    simp [tick, h1, h2, h3, h4]
  · intro env l items rows cur h1 h2 h3 h4 h5
    simp [tick, h1, h2, h3, h4, h5]
  · intro env l items rows cur h1 h2 h3 h4 h5
    simp [tick, h1, h2, h3, h4, h5]
  · intro env l hne
    by_contra hap
    apply hne
    cases h1 : env.fetchRes with
    | none => simp [tick, h1]
    | some items =>
      cases h2 : make_rows env.loc items with
      | none => simp [tick, h1, h2]
      | some rows =>
        by_cases h3 : some (fingerprint rows) = l
        · simp [tick, h1, h2, h3]
        · cases h4 : env.readRes with
          | none => simp [tick, h1, h2, h3, h4]
          | some cur =>
            simp [tick, h1, h2, h3, h4, hap]
  · intro envs l
    induction envs generalizing l with
    | nil => simp [runLoop]
    | cons e rest ih => simp [runLoop, ih]

/-- Witness for C7: a failed fetch leaves the state untouched. -/
theorem claim7_tick_atomicity_witness :
    tick ⟨none, none, true, 0⟩ none = (none, []) :=
  claim7_tick_atomicity.1 ⟨none, none, true, 0⟩ none rfl

/-- Key extraction preserves the records in input order and pairs each
with its normalised timestamp. -/
theorem keyRecords_spec (loc : Int) :
    ∀ (items : List Record) (keyed : List (Int × Record)),
      keyRecords loc items = some keyed →
      keyed.map Prod.snd = items ∧
      ∀ p ∈ keyed, to_dt loc p.2.creation_date = some p.1 := by
  intro items
  induction items with
  | nil =>
    intro keyed h
    have h' : some ([] : List (Int × Record)) = some keyed := h
    injection h' with h'
    subst h'
    simp
  | cons x rest ih =>
    intro keyed h
    simp only [keyRecords] at h
    cases hx : to_dt loc x.creation_date with
    | none =>
      rw [hx] at h
      have h' : (none : Option (List (Int × Record))) = some keyed := h
      cases h'
    | some t =>
      cases hk : keyRecords loc rest with
      | none =>
        rw [hx, hk] at h
        have h' : (none : Option (List (Int × Record))) = some keyed := h
        cases h'
      | some ks =>
        rw [hx, hk] at h
        have h' : some ((t, x) :: ks) = some keyed := h
        injection h' with h'
        subst h'
        obtain ⟨ih1, ih2⟩ := ih ks hk
        refine ⟨by simp [ih1], ?_⟩
        rintro p hp
        rcases List.mem_cons.mp hp with rfl | hp'
        · simpa using hx
        · exact ih2 p hp'

/-- Numbering the elements of a list from `n` yields first components
`n, n+1, …`. -/
theorem enumFrom_map_fst {α : Type} (n : Nat) (l : List α) :
    (l.enumFrom n).map Prod.fst = List.range' n l.length := by
  induction l generalizing n with
  | nil => simp [List.range']
  | cons x xs ih => simp [List.range'_succ, ih]

/-- Claim C5: `make_rows` pairs each non-cancelled record with its
normalised UTC timestamp, sorts ascending by that key with a stable
sort, numbers the result 1..N and renders each record (trimmed team
and village, paid from the `Bezahlt` label); on the spec's two-record
scenario it returns the given RowSet. -/
theorem claim5_make_rows :
    (∀ (loc : Int) (items : List Record) (rows : List (Nat × String × Bool)),
      make_rows loc items = some rows →
      ∃ keyed ordered : List (Int × Record),
        keyRecords loc items = some keyed ∧
        keyed.map Prod.snd = items ∧
        (∀ p ∈ keyed, to_dt loc p.2.creation_date = some p.1) ∧
        ordered.Perm keyed ∧
        List.Pairwise keyLe ordered ∧
        (∀ sub : List (Int × Record), sub.Pairwise keyLe → sub.Sublist keyed →
          sub.Sublist ordered) ∧
        rows = (ordered.enumFrom 1).map
          (fun p => (p.1, (renderRow p.2.2).1, (renderRow p.2.2).2)) ∧
        rows.map (fun r => r.1) = List.range' 1 items.length) ∧
    (∀ loc : Int, make_rows loc [falkenRec, adlerRec] =
      some [(1, "Adler aus Beesten – bestätigt", true),
            (2, "Falken aus Spelle – unbestätigt", false)]) := by
  constructor
  · intro loc items rows h
    simp only [make_rows] at h
    cases hk : keyRecords loc items with
    | none =>
      rw [hk] at h
      have h' : (none : Option (List (Nat × String × Bool))) = some rows := h
      cases h'
    | some keyed =>
      rw [hk] at h
      have h' : some (((List.insertionSort keyLe keyed).enumFrom 1).map
          (fun p => (p.1, (renderRow p.2.2).1, (renderRow p.2.2).2))) = some rows := h
      injection h' with h'
      obtain ⟨hsnd, hts⟩ := keyRecords_spec loc items keyed hk
      subst h'
      refine ⟨keyed, List.insertionSort keyLe keyed, rfl, hsnd, hts,
        List.perm_insertionSort keyLe keyed,
        List.sorted_insertionSort keyLe keyed,
        fun sub hp hs => List.sublist_insertionSort hp hs, rfl, ?_⟩
      have hlen : (List.insertionSort keyLe keyed).length = items.length := by
        rw [(List.perm_insertionSort keyLe keyed).length_eq, ← hsnd,
          List.length_map]
      rw [List.map_map]
      show List.map Prod.fst
          ((List.insertionSort keyLe keyed).enumFrom 1) = _
      rw [enumFrom_map_fst, hlen]
  · intro loc
    rfl

/-- Witness for C5: the spec's two-record scenario at local offset 0. -/
theorem claim5_make_rows_witness :
    make_rows 0 [falkenRec, adlerRec] =
      some [(1, "Adler aus Beesten – bestätigt", true),
            (2, "Falken aus Spelle – unbestätigt", false)] :=
  claim5_make_rows.2 0

/-! ### C6 machinery: printed ISO timestamps

`pad2`/`pad4` print zero-padded components; `fmtDate`/`fmtDT`/`fmtOff`
assemble the timestamp shapes the data source can produce.  -/

def pad2 (n : Nat) : List Char :=
  [Nat.digitChar (n / 10 % 10), Nat.digitChar (n % 10)]

def pad4 (n : Nat) : List Char :=
  [Nat.digitChar (n / 1000 % 10), Nat.digitChar (n / 100 % 10),
   Nat.digitChar (n / 10 % 10), Nat.digitChar (n % 10)]

def fmtDate (y m d : Nat) : List Char :=
  pad4 y ++ ['-'] ++ pad2 m ++ ['-'] ++ pad2 d

def fmtDT (y m d h mi s : Nat) : List Char :=
  fmtDate y m d ++ ['T'] ++ pad2 h ++ [':'] ++ pad2 mi ++ [':'] ++ pad2 s

def fmtOff (sgn : Char) (oh om : Nat) : List Char :=
  [sgn] ++ pad2 oh ++ [':'] ++ pad2 om

theorem digitChar_spec : ∀ k < 10, (Nat.digitChar k).isDigit = true ∧
    digVal (Nat.digitChar k) = k ∧ Nat.digitChar k ≠ '+' ∧
    Nat.digitChar k ≠ '-' ∧ Nat.digitChar k ≠ 'Z' ∧ Nat.digitChar k ≠ '.' := by
  decide

theorem readDigits_digits (ds : List Char) (hds : ∀ c ∈ ds, c.isDigit = true) :
    ∀ (acc : Nat) (rest : List Char), readDigits ds.length acc (ds ++ rest) =
      some (ds.foldl (fun a c => a * 10 + digVal c) acc, rest) := by
  induction ds with
  | nil => intro acc rest; rfl
  | cons c cs ih =>
    intro acc rest
    show (if c.isDigit then readDigits cs.length (acc * 10 + digVal c) (cs ++ rest)
      else none) = _
    rw [if_pos (hds c (List.mem_cons_self c cs)),
      ih (fun c' hc' => hds c' (List.mem_cons_of_mem _ hc')) (acc * 10 + digVal c) rest]
    rfl

theorem pad2_digits (n : Nat) : ∀ c ∈ pad2 n, c.isDigit = true := by
  intro c hc
  simp only [pad2, List.mem_cons, List.not_mem_nil, or_false] at hc
  rcases hc with rfl | rfl
  · exact (digitChar_spec _ (Nat.mod_lt _ (by decide))).1
  · exact (digitChar_spec _ (Nat.mod_lt _ (by decide))).1

theorem pad4_digits (n : Nat) : ∀ c ∈ pad4 n, c.isDigit = true := by
  intro c hc
  simp only [pad4, List.mem_cons, List.not_mem_nil, or_false] at hc
  rcases hc with rfl | rfl | rfl | rfl
  · exact (digitChar_spec _ (Nat.mod_lt _ (by decide))).1
  · exact (digitChar_spec _ (Nat.mod_lt _ (by decide))).1
  · exact (digitChar_spec _ (Nat.mod_lt _ (by decide))).1
  · exact (digitChar_spec _ (Nat.mod_lt _ (by decide))).1

theorem readN_pad2 (n : Nat) (h : n ≤ 99) (rest : List Char) :
    readN 2 (pad2 n ++ rest) = some (n, rest) := by
  have h0 : readN 2 (pad2 n ++ rest) =
      some ((pad2 n).foldl (fun a c => a * 10 + digVal c) 0, rest) :=
    readDigits_digits (pad2 n) (pad2_digits n) 0 rest
  rw [h0]
  show some ((0 * 10 + digVal (Nat.digitChar (n / 10 % 10))) * 10 +
      digVal (Nat.digitChar (n % 10)), rest) = some (n, rest)
  rw [(digitChar_spec (n / 10 % 10) (Nat.mod_lt _ (by decide))).2.1,
    (digitChar_spec (n % 10) (Nat.mod_lt _ (by decide))).2.1]
  have hv : (0 * 10 + n / 10 % 10) * 10 + n % 10 = n := by omega
  rw [hv]

theorem readN_pad4 (n : Nat) (h : n ≤ 9999) (rest : List Char) :
    readN 4 (pad4 n ++ rest) = some (n, rest) := by
  have h0 : readN 4 (pad4 n ++ rest) =
      some ((pad4 n).foldl (fun a c => a * 10 + digVal c) 0, rest) :=
    readDigits_digits (pad4 n) (pad4_digits n) 0 rest
  rw [h0]
  show some ((((0 * 10 + digVal (Nat.digitChar (n / 1000 % 10))) * 10 +
      digVal (Nat.digitChar (n / 100 % 10))) * 10 +
      digVal (Nat.digitChar (n / 10 % 10))) * 10 +
      digVal (Nat.digitChar (n % 10)), rest) = some (n, rest)
  rw [(digitChar_spec (n / 1000 % 10) (Nat.mod_lt _ (by decide))).2.1,
    (digitChar_spec (n / 100 % 10) (Nat.mod_lt _ (by decide))).2.1,
    (digitChar_spec (n / 10 % 10) (Nat.mod_lt _ (by decide))).2.1,
    (digitChar_spec (n % 10) (Nat.mod_lt _ (by decide))).2.1]
  have hv : (((0 * 10 + n / 1000 % 10) * 10 + n / 100 % 10) * 10 +
      n / 10 % 10) * 10 + n % 10 = n := by omega
  rw [hv]

theorem expect_cons (c : Char) (rest : List Char) :
    expect c (c :: rest) = some rest := by
  show (if c = c then some rest else none) = some rest
  rw [if_pos rfl]

theorem daysInMonth_le (y m : Nat) : daysInMonth y m ≤ 31 := by
  rw [daysInMonth]
  split
  · split <;> decide
  · split <;> decide

theorem parseFrac_not_dot {cs : List Char} (hdot : cs.head? ≠ some '.') :
    parseFrac cs = some (0, cs) := by
  simp only [parseFrac, hdot, if_false, ite_false]

theorem parseTime_fmt (h mi s : Nat) (hh : h ≤ 23) (hmi : mi ≤ 59) (hs : s ≤ 59)
    (rest : List Char) (hdot : rest.head? ≠ some '.') :
    parseTime (pad2 h ++ (':' :: (pad2 mi ++ (':' :: (pad2 s ++ rest))))) =
      some (h, mi, s, 0, rest) := by
  have h1 := readN_pad2 h (by omega) (':' :: (pad2 mi ++ (':' :: (pad2 s ++ rest))))
  have h2 := readN_pad2 mi (by omega) (':' :: (pad2 s ++ rest))
  have h3 := readN_pad2 s (by omega) rest
  have hh' : ¬ h > 23 := by omega
  have hmi' : ¬ mi > 59 := by omega
  have hs' : ¬ s > 59 := by omega
  simp only [parseTime, h1, hh', List.head?_cons, List.tail_cons, h2, hmi', h3, hs',
    parseFrac_not_dot hdot, if_false, if_true, ite_false, ite_true, reduceIte]

theorem parseOffTail_fmt (sgn : Char) (oh om : Nat) (hoh : oh ≤ 23) (hom : om ≤ 59) :
    parseOffTail sgn (pad2 oh ++ (':' :: pad2 om)) =
      some (if sgn = '+' then (((oh * 3600 + om * 60) * 1000000 : Nat) : Int)
            else -(((oh * 3600 + om * 60) * 1000000 : Nat) : Int)) := by
  have h1 := readN_pad2 oh (by omega) (':' :: pad2 om)
  have h2 : readN 2 (pad2 om) = some (om, []) := by
    have := readN_pad2 om (by omega) []
    rwa [List.append_nil] at this
  have hv : ¬ (oh > 23 ∨ om > 59) := by omega
  simp only [parseOffTail, h1, expect_cons, h2, hv, if_false, ite_false,
    List.isEmpty_nil, not_true, reduceIte]

theorem parseIso_fmtDate (y m d : Nat) (hy1 : 1 ≤ y) (hy2 : y ≤ 9999)
    (hm1 : 1 ≤ m) (hm2 : m ≤ 12) (hd1 : 1 ≤ d) (hd2 : d ≤ daysInMonth y m) :
    parseIso (fmtDate y m d) = some (epochMicros y m d 0 0 0 0, none) := by
  have hsh : fmtDate y m d =
      pad4 y ++ ('-' :: (pad2 m ++ ('-' :: (pad2 d ++ [])))) := by
    simp [fmtDate, List.append_assoc]
  have hvalid : ¬ (y < 1 ∨ m < 1 ∨ m > 12 ∨ d < 1 ∨ d > daysInMonth y m) := by
    omega
  rw [hsh]
  simp only [parseIso, readN_pad4 y (by omega), expect_cons,
    readN_pad2 m (by omega),
    readN_pad2 d (by have := daysInMonth_le y m; omega), hvalid,
    List.isEmpty_nil, if_false, if_true, ite_false, ite_true, reduceIte]

theorem parseIso_fmtDT (y m d h mi s : Nat) (hy1 : 1 ≤ y) (hy2 : y ≤ 9999)
    (hm1 : 1 ≤ m) (hm2 : m ≤ 12) (hd1 : 1 ≤ d) (hd2 : d ≤ daysInMonth y m)
    (hh : h ≤ 23) (hmi : mi ≤ 59) (hs : s ≤ 59)
    (rest : List Char) (hdot : rest.head? ≠ some '.') :
    parseIso (fmtDT y m d h mi s ++ rest) =
      (if rest.isEmpty then some (epochMicros y m d h mi s 0, none)
       else if rest.head? = some '+' ∨ rest.head? = some '-' then
         match parseOffTail (rest.headD ' ') rest.tail with
         | none => none
         | some off => some (epochMicros y m d h mi s 0, some off)
       else none) := by
  have hsh : fmtDT y m d h mi s ++ rest =
      pad4 y ++ ('-' :: (pad2 m ++ ('-' :: (pad2 d ++
        ('T' :: (pad2 h ++ (':' :: (pad2 mi ++ (':' :: (pad2 s ++ rest)))))))))) := by
    simp [fmtDT, fmtDate, List.append_assoc]
  have hvalid : ¬ (y < 1 ∨ m < 1 ∨ m > 12 ∨ d < 1 ∨ d > daysInMonth y m) := by
    omega
  rw [hsh]
  simp only [parseIso, readN_pad4 y (by omega), expect_cons,
    readN_pad2 m (by omega),
    readN_pad2 d (by have := daysInMonth_le y m; omega), hvalid,
    List.isEmpty_cons, List.head?_cons, List.tail_cons,
    parseTime_fmt h mi s hh hmi hs rest hdot,
    if_false, if_true, ite_false, ite_true, reduceIte]
  simp

theorem parseIso_fmtDT_utc (y m d h mi s : Nat) (hy1 : 1 ≤ y) (hy2 : y ≤ 9999)
    (hm1 : 1 ≤ m) (hm2 : m ≤ 12) (hd1 : 1 ≤ d) (hd2 : d ≤ daysInMonth y m)
    (hh : h ≤ 23) (hmi : mi ≤ 59) (hs : s ≤ 59) :
    parseIso (fmtDT y m d h mi s ++ ['+', '0', '0', ':', '0', '0']) =
      some (epochMicros y m d h mi s 0, some 0) := by
  have hrw : (['+', '0', '0', ':', '0', '0'] : List Char) =
      '+' :: (pad2 0 ++ (':' :: pad2 0)) := by
    decide
  rw [hrw, parseIso_fmtDT y m d h mi s hy1 hy2 hm1 hm2 hd1 hd2 hh hmi hs _
    (by simp)]
  simp [parseOffTail_fmt '+' 0 0 (by decide) (by decide)]

theorem lastN_append {n : Nat} (A B : List Char) (h : B.length = n) :
    lastN n (A ++ B) = B := by
  rw [lastN, List.length_append, h,
    show A.length + n - n = A.length by omega]
  exact List.drop_left A B

theorem contains_eq_false_iff {l : List Char} {c : Char} :
    l.contains c = false ↔ c ∉ l := by
  simp [List.contains, List.elem_eq_mem]

theorem not_mem_pad2 {c : Char} (hc : ∀ k, k < 10 → Nat.digitChar k ≠ c)
    (n : Nat) : c ∉ pad2 n := by
  intro hm
  simp only [pad2, List.mem_cons, List.not_mem_nil, or_false] at hm
  rcases hm with rfl | rfl
  · exact hc _ (Nat.mod_lt _ (by decide)) rfl
  · exact hc _ (Nat.mod_lt _ (by decide)) rfl

theorem z_suffix_false {A : List Char} (h : A.getLast? ≠ some 'Z') :
    ['Z'].isSuffixOf A = false := by
  rw [← Bool.not_eq_true]
  simp only [List.isSuffixOf_iff_suffix]
  intro hsf
  obtain ⟨t, ht⟩ := hsf
  exact h (ht ▸ List.getLast?_concat t)

theorem getLast_digit_ne_Z {A : List Char} {k : Nat} (hk : k < 10)
    (h : A.getLast? = some (Nat.digitChar k)) : ['Z'].isSuffixOf A = false := by
  refine z_suffix_false ?_
  rw [h]
  intro he
  injection he with he
  exact (digitChar_spec k hk).2.2.2.2.1 he

theorem getLast_fmtDT (y m d h mi s : Nat) :
    (fmtDT y m d h mi s).getLast? = some (Nat.digitChar (s % 10)) := by
  simp [fmtDT, fmtDate, pad2, pad4]

theorem getLast_fmtDate (y m d : Nat) :
    (fmtDate y m d).getLast? = some (Nat.digitChar (d % 10)) := by
  simp [fmtDate, pad2, pad4]

theorem getLast_fmtOff (X : List Char) (sgn : Char) (oh om : Nat) :
    (X ++ fmtOff sgn oh om).getLast? = some (Nat.digitChar (om % 10)) := by
  simp [fmtOff, pad2]

theorem lastN6_fmtDT (y m d h mi s : Nat) :
    lastN 6 (fmtDT y m d h mi s) = ':' :: (pad2 mi ++ (':' :: pad2 s)) := by
  have hsh : fmtDT y m d h mi s =
      (fmtDate y m d ++ ('T' :: pad2 h)) ++ (':' :: (pad2 mi ++ (':' :: pad2 s))) := by
    simp [fmtDT, List.append_assoc]
  rw [hsh, lastN_append _ _ (by simp [pad2])]

theorem lastN6_fmtDate (y m d : Nat) :
    lastN 6 (fmtDate y m d) = '-' :: (pad2 m ++ ('-' :: pad2 d)) := by
  have hsh : fmtDate y m d = pad4 y ++ ('-' :: (pad2 m ++ ('-' :: pad2 d))) := by
    simp [fmtDate, List.append_assoc]
  rw [hsh, lastN_append _ _ (by simp [pad2])]

theorem lastN6_fmtOff (X : List Char) (sgn : Char) (oh om : Nat) :
    lastN 6 (X ++ fmtOff sgn oh om) = fmtOff sgn oh om :=
  lastN_append _ _ (by simp [fmtOff, pad2])

theorem timeTail_no_plus (mi s : Nat) :
    (':' :: (pad2 mi ++ (':' :: pad2 s))).contains '+' = false := by
  rw [contains_eq_false_iff]
  intro hm
  simp only [List.mem_cons, List.mem_append] at hm
  rcases hm with h | h | h | h
  · exact absurd h (by decide)
  · exact not_mem_pad2 (fun k hk => (digitChar_spec k hk).2.2.1) mi h
  · exact absurd h (by decide)
  · exact not_mem_pad2 (fun k hk => (digitChar_spec k hk).2.2.1) s h

theorem timeTail_no_minus (mi s : Nat) :
    (':' :: (pad2 mi ++ (':' :: pad2 s))).contains '-' = false := by
  rw [contains_eq_false_iff]
  intro hm
  simp only [List.mem_cons, List.mem_append] at hm
  rcases hm with h | h | h | h
  · exact absurd h (by decide)
  · exact not_mem_pad2 (fun k hk => (digitChar_spec k hk).2.2.2.1) mi h
  · exact absurd h (by decide)
  · exact not_mem_pad2 (fun k hk => (digitChar_spec k hk).2.2.2.1) s h

theorem dateTail_has_minus (m d : Nat) :
    ('-' :: (pad2 m ++ ('-' :: pad2 d))).contains '-' = true := rfl

theorem fmtOff_contains_self (sgn : Char) (oh om : Nat) :
    (fmtOff sgn oh om).contains sgn = true := by
  have : fmtOff sgn oh om = sgn :: (pad2 oh ++ (':' :: pad2 om)) := by
    simp [fmtOff, List.append_assoc]
  rw [this]
  simp [List.contains]

/-- Claim C6 counterexample: the date-only string `2024-01-01` parses
with no explicit offset anywhere (so none in its final six
characters), yet with a non-UTC system timezone (`loc = 3600`,
CET-like) `to_dt` does **not** treat it as UTC: the `-` characters of
the date defeat the `s[-6:]` test, the value stays offset-naive, and
`astimezone` shifts it by the local offset, so it disagrees with the
same instant written Z-suffixed. -/
theorem claim6_to_dt_counterexample :
    parseIso "2024-01-01".data = some (1704067200000000, none) ∧
    to_dt 3600 "2024-01-01" = some 1704063600000000 ∧
    to_dt 3600 "2024-01-01T00:00:00Z" = some 1704067200000000 ∧
    to_dt 3600 "2024-01-01" ≠ to_dt 3600 "2024-01-01T00:00:00Z" :=
  ⟨by decide, by decide, by decide, by decide⟩

/-- Claim C6 (amended): for every well-formed timestamp, a trailing
literal `Z` is treated as UTC; a timestamp whose final six characters
contain neither `+` nor `-` (e.g. the full `T HH:MM:SS` form) is
assumed UTC; an explicit `±HH:MM` offset is honoured; but a
timestamp that parses without an explicit offset while carrying `-`
or `+` among its final six characters — e.g. a date-only string — is
interpreted in the system local timezone instead of UTC. -/
theorem claim6_to_dt_amended (loc : Int) (y m d h mi s : Nat)
    (hy1 : 1 ≤ y) (hy2 : y ≤ 9999) (hm1 : 1 ≤ m) (hm2 : m ≤ 12)
    (hd1 : 1 ≤ d) (hd2 : d ≤ daysInMonth y m)
    (hh : h ≤ 23) (hmi : mi ≤ 59) (hs : s ≤ 59) :
    to_dtL loc (fmtDT y m d h mi s ++ ['Z']) =
      some (epochMicros y m d h mi s 0) ∧
    to_dtL loc (fmtDT y m d h mi s) = some (epochMicros y m d h mi s 0) ∧
    (∀ oh om, oh ≤ 23 → om ≤ 59 →
      to_dtL loc (fmtDT y m d h mi s ++ fmtOff '+' oh om) =
        some (epochMicros y m d h mi s 0 -
          (((oh * 3600 + om * 60) * 1000000 : Nat) : Int)) ∧
      to_dtL loc (fmtDT y m d h mi s ++ fmtOff '-' oh om) =
        some (epochMicros y m d h mi s 0 +
          (((oh * 3600 + om * 60) * 1000000 : Nat) : Int))) ∧
    to_dtL loc (fmtDate y m d) =
      some (epochMicros y m d 0 0 0 0 - loc * 1000000) := by
  have hutc := parseIso_fmtDT_utc y m d h mi s hy1 hy2 hm1 hm2 hd1 hd2 hh hmi hs
  refine ⟨?_, ?_, ?_, ?_⟩
  · have hz : ['Z'].isSuffixOf (fmtDT y m d h mi s ++ ['Z']) = true :=
      List.isSuffixOf_iff_suffix.mpr (List.suffix_append _ _)
    simp [to_dtL, hz, hutc]
  · have hz := getLast_digit_ne_Z (Nat.mod_lt _ (by decide)) (getLast_fmtDT y m d h mi s)
    have hplus : '+' ∉ lastN 6 (fmtDT y m d h mi s) :=
      contains_eq_false_iff.mp (lastN6_fmtDT y m d h mi s ▸ timeTail_no_plus mi s)
    have hminus : '-' ∉ lastN 6 (fmtDT y m d h mi s) :=
      contains_eq_false_iff.mp (lastN6_fmtDT y m d h mi s ▸ timeTail_no_minus mi s)
    simp [to_dtL, hz, hplus, hminus, hutc]
  · intro oh om hoh hom
    constructor
    · have hz := getLast_digit_ne_Z (Nat.mod_lt _ (by decide))
        (getLast_fmtOff (fmtDT y m d h mi s) '+' oh om)
      have hoff : fmtOff '+' oh om = '+' :: (pad2 oh ++ (':' :: pad2 om)) := by
        simp [fmtOff, List.append_assoc]
    -- the last-6 block contains the sign, so nothing is appended
      have hplus : '+' ∈ lastN 6 (fmtDT y m d h mi s ++ fmtOff '+' oh om) := by
        rw [lastN6_fmtOff, hoff]
        exact List.mem_cons_self _ _
      have hpi := parseIso_fmtDT y m d h mi s hy1 hy2 hm1 hm2 hd1 hd2 hh hmi hs
        (fmtOff '+' oh om) (by rw [hoff]; simp)
      rw [hoff] at hpi
      simp [parseOffTail_fmt '+' oh om hoh hom] at hpi
      rw [← hoff] at hpi
      simp [to_dtL, hz, hplus, hpi]
    · have hz := getLast_digit_ne_Z (Nat.mod_lt _ (by decide))
        (getLast_fmtOff (fmtDT y m d h mi s) '-' oh om)
      have hoff : fmtOff '-' oh om = '-' :: (pad2 oh ++ (':' :: pad2 om)) := by
        simp [fmtOff, List.append_assoc]
      have hminus : '-' ∈ lastN 6 (fmtDT y m d h mi s ++ fmtOff '-' oh om) := by
        rw [lastN6_fmtOff, hoff]
        exact List.mem_cons_self _ _
      have hpi := parseIso_fmtDT y m d h mi s hy1 hy2 hm1 hm2 hd1 hd2 hh hmi hs
        (fmtOff '-' oh om) (by rw [hoff]; simp)
      rw [hoff] at hpi
      simp [parseOffTail_fmt '-' oh om hoh hom] at hpi
      rw [← hoff] at hpi
      simp [to_dtL, hz, hminus, hpi, Int.sub_neg]
  · have hz := getLast_digit_ne_Z (Nat.mod_lt _ (by decide)) (getLast_fmtDate y m d)
    have hminus : '-' ∈ lastN 6 (fmtDate y m d) := by
      rw [lastN6_fmtDate]
      exact List.mem_cons_self _ _
    have hpi := parseIso_fmtDate y m d hy1 hy2 hm1 hm2 hd1 hd2
    simp [to_dtL, hz, hminus, hpi]

/-- Witness for the amended C6 at 2024-01-01T09:30:15 with `loc`
one hour and offset 02:30. -/
theorem claim6_to_dt_amended_witness :
    to_dtL 3600 (fmtDT 2024 1 1 9 30 15 ++ ['Z']) =
      some (epochMicros 2024 1 1 9 30 15 0) ∧
    to_dtL 3600 (fmtDT 2024 1 1 9 30 15) = some (epochMicros 2024 1 1 9 30 15 0) ∧
    to_dtL 3600 (fmtDT 2024 1 1 9 30 15 ++ fmtOff '+' 2 30) =
      some (epochMicros 2024 1 1 9 30 15 0 -
        (((2 * 3600 + 30 * 60) * 1000000 : Nat) : Int)) ∧
    to_dtL 3600 (fmtDate 2024 1 1) =
      some (epochMicros 2024 1 1 0 0 0 0 - 3600 * 1000000) :=
  have T := claim6_to_dt_amended 3600 2024 1 1 9 30 15 (by decide) (by decide)
    (by decide) (by decide) (by decide) (by decide) (by decide) (by decide)
    (by decide)
  ⟨T.1, T.2.1, (T.2.2.1 2 30 (by decide) (by decide)).1, T.2.2.2⟩

end Campflow
